import Mathlib

/-!
# fast-cli-prometheus-exporter: the output parser, the measurement cycle and the scheduler

A shallow embedding of `cmd/fast-cli-prometheus-exporter/main.go`.

Conventions of the embedding:

* A Go `string` is a `List Char`: the sequence of runes that ranging over the string yields.
  Only text that is valid UTF-8 is covered.
* `float64` values are an abstract type `F`; `strconv.ParseFloat` is a parameter
  `ParseFloat : List Char → Except ε F` (`.ok v` when Go returns `err == nil`,
  `.error e` when it returns `err != nil`).
* The Go standard library functions `unicode.IsSpace`, `strings.TrimSpace` and `strings.Fields`
  are written out following their documentation.
-/

namespace FastCliExporter

/-! ## Standard library functions used by `parseOutput` -/

/-- Go `unicode.IsSpace`: in Latin-1 the runes `'\t'`, `'\n'`, `'\v'`, `'\f'`, `'\r'`, `' '`,
U+0085 (NEL) and U+00A0 (NBSP); above Latin-1 the runes with the Unicode property
`White_Space`. -/
def isSpace (r : Char) : Bool :=
  let n := r.toNat
  if n ≤ 0xFF then
    n == 0x09 || n == 0x0A || n == 0x0B || n == 0x0C || n == 0x0D || n == 0x20
      || n == 0x85 || n == 0xA0
  else
    n == 0x1680 || (0x2000 ≤ n && n ≤ 0x200A) || n == 0x2028 || n == 0x2029
      || n == 0x202F || n == 0x205F || n == 0x3000

/-- Go `strings.TrimSpace`: the string with all leading and all trailing white space removed. -/
def TrimSpace (s : List Char) : List Char :=
  (s.dropWhile isSpace).rdropWhile isSpace

/-- The scanning loop of Go `strings.FieldsFunc(s, unicode.IsSpace)`. The second argument is the
field being scanned: `none` stands for `start = -1` (between fields), `some cur` for
`start >= 0` with `cur = s[start:i]`. A white space rune closes the open field, any other
rune opens or extends it, and a field still open at the end of the string is emitted. -/
def fieldsLoop : List Char → Option (List Char) → List (List Char)
  | [], none => []
  | [], some cur => [cur]
  | r :: rest, start =>
    if isSpace r then
      match start with
      | some cur => cur :: fieldsLoop rest none
      | none => fieldsLoop rest none
    else
      match start with
      | some cur => fieldsLoop rest (some (cur ++ [r]))
      | none => fieldsLoop rest (some [r])

/-- Go `strings.Fields`: splits the string around each run of one or more consecutive white
space runes; the result is empty when the string holds only white space. -/
def Fields (s : List Char) : List (List Char) :=
  fieldsLoop s none

deriving instance DecidableEq for Except

/-! ## `parseOutput` -/

/-- The three errors `parseOutput` builds with `fmt.Errorf`, each with the value its message
is formatted from. -/
inductive ParseError (ε : Type) where
  /-- The error "expected 2 fields, got %d". -/
  | malformedOutput (got : Nat)
  /-- The error "expected unit Mbps, got %q". -/
  | unexpectedUnit (unit : List Char)
  /-- The error "value is not float64: %w", wrapping the error of `strconv.ParseFloat`. -/
  | notANumber (cause : ε)
  deriving DecidableEq

/-- The unit token `"Mbps"`. -/
def mbpsUnit : List Char := ['M', 'b', 'p', 's']

/-- The function `parseOutput` of `main.go`. -/
def parseOutput {ε F : Type} (ParseFloat : List Char → Except ε F) (s : List Char) :
    Except (ParseError ε) F :=
  let s := TrimSpace s
  let fields := Fields s
  if fields.length ≠ 2 then
    .error (.malformedOutput fields.length)
  else if fields.getD 1 [] ≠ mbpsUnit then
    .error (.unexpectedUnit (fields.getD 1 []))
  else
    match ParseFloat (fields.getD 0 []) with
    | .error err => .error (.notANumber err)
    | .ok mbps => .ok mbps

/-! ## A decimal reader, to run the parser on concrete text -/

/-- A decimal literal read exactly: the value is `mantissa / 10 ^ scale`. -/
structure Decimal where
  mantissa : Nat
  scale : Nat
  deriving DecidableEq

/-- Reads a run of decimal digits onto `acc`; `none` when a rune is not a digit. -/
def readDigits : List Char → Nat → Option Nat
  | [], acc => some acc
  | c :: cs, acc => if c.isDigit then readDigits cs (10 * acc + (c.toNat - 48)) else none

/-- An instance for the `ParseFloat` parameter on unsigned literals `digits` and
`digits.digits`, which `strconv.ParseFloat` accepts as well; every other text is rejected
here. It serves to evaluate `parseOutput` on sample outputs. -/
def decimalParseFloat (s : List Char) : Except Unit Decimal :=
  let ip := s.takeWhile (fun c => c != '.')
  let fp := (s.dropWhile (fun c => c != '.')).drop 1
  if ip = [] ∨ (s.contains '.' ∧ fp = []) then .error ()
  else
    match readDigits (ip ++ fp) 0 with
    | some m => .ok ⟨m, fp.length⟩
    | none => .error ()

/-- The zero of `Decimal`, the initial value of a gauge. -/
instance : Zero Decimal := ⟨⟨0, 0⟩⟩

/-! ## Metric state and the measurement cycle `runTest` -/

/-- The lines written to `errLog` and `infoLog`, each with the values its format string
takes. -/
inductive LogEntry (ε F : Type) where
  /-- The line `errLog.Fatalf("Interval (%ds) must be >= 15s", ...)`. -/
  | intervalTooShort (interval : Int)
  /-- The line `errLog.Fatalf("Unable to find fast-cli in path")`. -/
  | fastCliNotFound
  /-- The line `errLog.Printf("ListenAndServe returned unexpected error: %s", err)`. -/
  | listenAndServeError (err : ε)
  /-- The line `errLog.Printf("Unable to execute command: %s", err)`. -/
  | unableToExecute (err : ε)
  /-- The line `errLog.Printf("Unable to parse output: %s", err)`. -/
  | unableToParse (err : ParseError ε)
  /-- The line `infoLog.Printf("Recorded measurement: %.2f Mbps", mbps)`. -/
  | recorded (mbps : F)
  /-- The line `errLog.Fatalf("Terminating with unexpected error: %s", err)`. -/
  | terminatingUnexpected
  /-- The line `infoLog.Printf("Terminating with expected signal")`. -/
  | terminatingExpectedSignal
  deriving DecidableEq

/-- The four instruments registered in `main` and the log. A histogram is the list of the
values observed, oldest first; the counter vector maps the value of the label `reason` to the
count of its child, 0 for a child never incremented. -/
structure State (ε F : Type) where
  errorCounter : String → Nat
  mbpsDistribution : List F
  mbpsGauge : F
  latencyDistribution : List F
  log : List (LogEntry ε F)

/-- The metric state right after registration: nothing counted, nothing observed, the gauge
at zero. -/
def State.fresh (ε F : Type) [Zero F] : State ε F :=
  { errorCounter := fun _ => 0
    mbpsDistribution := []
    mbpsGauge := 0
    latencyDistribution := []
    log := [] }

/-- The call `errorCounter.With(prometheus.Labels{"reason": reason}).Inc()`. -/
def State.incError {ε F : Type} (reason : String) (st : State ε F) : State ε F :=
  { st with errorCounter := fun r => if r = reason then st.errorCounter r + 1
                                     else st.errorCounter r }

/-- A call of `Printf` on one of the two loggers. -/
def State.logLine {ε F : Type} (e : LogEntry ε F) (st : State ε F) : State ε F :=
  { st with log := st.log ++ [e] }

/-- What one measurement cycle receives from outside: the result of
`exec.CommandContext(ctx, path, "--simple").Output()` (the captured standard output, or the
error of a failed spawn, a nonzero exit or an expired deadline) and the elapsed seconds
measured when `runTest` returns. -/
structure Cycle (ε F : Type) where
  output : Except ε (List Char)
  elapsed : F

/-- The closure `runTest` of `main`. The deferred function runs when the body returns, on
all three paths, and observes the elapsed time. -/
def runTest {ε F : Type} (ParseFloat : List Char → Except ε F) (c : Cycle ε F)
    (st : State ε F) : State ε F :=
  let st :=
    match c.output with
    | .error err => (st.incError "command").logLine (.unableToExecute err)
    | .ok b =>
      match parseOutput ParseFloat b with
      | .error err => (st.incError "unexpected_output").logLine (.unableToParse err)
      | .ok mbps =>
        let st := { st with mbpsDistribution := st.mbpsDistribution ++ [mbps] }
        let st := { st with mbpsGauge := mbps }
        st.logLine (.recorded mbps)
  { st with latencyDistribution := st.latencyDistribution ++ [c.elapsed] }

/-! ## The process: startup checks, the server goroutine and the scheduler loop -/

/-- Rounding of a rational to `float64`, as far as the interval check depends on it: rounding
is monotone, and every `m / 2 ^ e` with `|m| ≤ 2 ^ 53` and `e ≤ 1074` is a `float64` and is
returned unchanged. -/
structure Float64Rounding (rnd : ℚ → ℚ) : Prop where
  mono : ∀ x y : ℚ, x ≤ y → rnd x ≤ rnd y
  exact : ∀ (m : Int) (e : Nat), |m| ≤ 2 ^ 53 → e ≤ 1074 →
    rnd ((m : ℚ) / 2 ^ e) = (m : ℚ) / 2 ^ e

/-- The integer nearest to `q`, a tie going to the even one. -/
def roundHalfEven (q : ℚ) : Int :=
  if q - ⌊q⌋ < 1 / 2 then ⌊q⌋
  else if 1 / 2 < q - ⌊q⌋ then ⌊q⌋ + 1
  else if ⌊q⌋ % 2 = 0 then ⌊q⌋ else ⌊q⌋ + 1

/-- The exponent of the unit in the last place of the `float64` binade of `q`: 52 below the
exponent of `q`, and not below that of the subnormal numbers. -/
def ulpExponent (q : ℚ) : Int :=
  max (Int.log 2 |q|) (-1022) - 52

/-- Rounding to `float64` in the default mode of IEEE 754, to nearest with ties to even:
the number is scaled by its unit in the last place, rounded to an integer and scaled back.
Overflow to infinity is left out; the values rounded in `Seconds` are below `2 ^ 34`. -/
def roundFloat64 (q : ℚ) : ℚ :=
  (roundHalfEven (q / 2 ^ ulpExponent q) : ℚ) * 2 ^ ulpExponent q

/-- Go `time.Duration.Seconds`: `sec := d / Second; nsec := d % Second;
return float64(sec) + float64(nsec)/1e9`, with Go's truncated integer division and with every
`float64` conversion and operation rounded by `rnd`. -/
def Seconds (rnd : ℚ → ℚ) (d : Int) : ℚ :=
  let sec := d.tdiv 1000000000
  let nsec := d.tmod 1000000000
  rnd (rnd (sec : ℚ) + rnd (rnd (nsec : ℚ) / 1000000000))

/-- The value of `ctx.Err()` once the context is done. -/
inductive CtxErr where
  /-- The error `context.Canceled`. -/
  | canceled
  /-- The error `context.DeadlineExceeded`. -/
  | deadlineExceeded
  deriving DecidableEq

/-- Whether the process still runs, or the status it exited with. -/
inductive Status where
  | running
  | exited (code : Nat)
  deriving DecidableEq

/-- The process: metric state and log, the error of the context made by
`signal.NotifyContext` (`none` while it is not done), whether the server goroutine was
started, and the exit status. -/
structure Proc (ε F : Type) where
  st : State ε F
  ctxErr : Option CtxErr
  serverStarted : Bool
  status : Status

/-- A call of `Fatalf` on `errLog`: the line is written and the process exits with status 1. -/
def Proc.fatal {ε F : Type} (e : LogEntry ε F) (p : Proc ε F) : Proc ε F :=
  { p with st := p.st.logLine e, status := .exited 1 }

/-- The function `cancel` returned by `signal.NotifyContext`: a context that is not done yet
becomes done with the error `context.Canceled`. -/
def Proc.cancel {ε F : Type} (p : Proc ε F) : Proc ε F :=
  match p.ctxErr with
  | none => { p with ctxErr := some .canceled }
  | some _ => p

/-- What happens to the running process after the first cycle. -/
inductive Event (ε F : Type) where
  /-- The signal SIGINT or SIGTERM arrives: `signal.NotifyContext` cancels the context. -/
  | signal
  /-- The call `s.ListenAndServe()` returns `err` in the server goroutine. -/
  | listenAndServe (err : ε)
  /-- The `select` of the loop receives from `t.C` and runs the cycle `c`. -/
  | tick (c : Cycle ε F)
  /-- The `select` of the loop receives from `ctx.Done()`. -/
  | done

/-- One event of the running process. The case `done` is the body of
`case <-ctx.Done()`; it cannot be taken while the context is not done. -/
def step {ε F : Type} (ParseFloat : List Char → Except ε F) (p : Proc ε F) :
    Event ε F → Proc ε F
  | .signal => if p.status = .running then p.cancel else p
  | .listenAndServe err =>
    if p.status = .running then
      Proc.cancel { p with st := p.st.logLine (.listenAndServeError err) }
    else p
  | .tick c => if p.status = .running then { p with st := runTest ParseFloat c p.st } else p
  | .done =>
    if p.status = .running then
      match p.ctxErr with
      | none => p
      | some err =>
        if err ≠ .canceled then p.fatal .terminatingUnexpected
        else { p with st := p.st.logLine .terminatingExpectedSignal, status := .exited 0 }
    else p

/-- The process before `main` has done anything. -/
def Proc.init (ε F : Type) [Zero F] : Proc ε F :=
  { st := State.fresh ε F, ctxErr := none, serverStarted := false, status := .running }

/-- The part of `main` after the interval check: `exec.LookPath`, the context, the
instruments, the server goroutine, the first cycle run at once, then the ticker loop over the
events. -/
def afterIntervalCheck {ε F : Type} [Zero F] (ParseFloat : List Char → Except ε F)
    (lookPath : Except ε (List Char)) (first : Cycle ε F) (events : List (Event ε F)) :
    Proc ε F :=
  match lookPath with
  | .error _ => (Proc.init ε F).fatal .fastCliNotFound
  | .ok _ =>
    let p : Proc ε F := { Proc.init ε F with serverStarted := true }
    let p := { p with st := runTest ParseFloat first p.st }
    events.foldl (step ParseFloat) p

/-- The function `main`: `interval` is the value of the flag in nanoseconds, `lookPath` the
result of `exec.LookPath("fast-cli")`, `first` the cycle run before the ticker is created and
`events` what happens from then on. -/
def main {ε F : Type} [Zero F] (rnd : ℚ → ℚ) (ParseFloat : List Char → Except ε F)
    (interval : Int) (lookPath : Except ε (List Char)) (first : Cycle ε F)
    (events : List (Event ε F)) : Proc ε F :=
  if Seconds rnd interval < 15 then
    (Proc.init ε F).fatal (.intervalTooShort interval)
  else
    afterIntervalCheck ParseFloat lookPath first events

/-- The stub of the end-to-end scenario: the subprocess succeeds and prints
`"100.00 Mbps"`. -/
def stubCycle {ε F : Type} (elapsed : F) : Cycle ε F :=
  { output := .ok "100.00 Mbps".toList, elapsed := elapsed }

/-- A metric state with earlier activity, to run one cycle from. -/
def sampleState : State Unit Decimal :=
  { errorCounter := fun r => if r = "command" then 4 else if r = "unexpected_output" then 2 else 0
    mbpsDistribution := [⟨935, 1⟩, ⟨2505, 2⟩]
    mbpsGauge := ⟨2505, 2⟩
    latencyDistribution := [⟨11, 0⟩, ⟨12, 0⟩, ⟨9, 0⟩]
    log := [] }

/-- The end-to-end scenario: interval 15 s, the stub as subprocess, the first cycle and then two
timer firings, no signal. -/
def endToEnd : Proc Unit Decimal :=
  main roundFloat64 decimalParseFloat 15000000000 (.ok "/usr/bin/fast-cli".toList)
    (stubCycle ⟨8, 0⟩) [.tick (stubCycle ⟨9, 0⟩), .tick (stubCycle ⟨7, 0⟩)]

/-! ## Lemmas on `Fields` and `TrimSpace` -/

theorem fieldsLoop_spaces (ws rest : List Char) (h : ∀ c ∈ ws, isSpace c = true) :
    fieldsLoop (ws ++ rest) none = fieldsLoop rest none := by
  induction ws with
  | nil => rfl
  | cons w ws ih =>
    have hw : isSpace w = true := h w (List.mem_cons_self _ _)
    have hws : ∀ c ∈ ws, isSpace c = true := fun c hc => h c (List.mem_cons_of_mem _ hc)
    rw [List.cons_append]
    simp only [fieldsLoop, hw, if_true]
    exact ih hws

theorem fieldsLoop_some_spaces (ws rest cur : List Char) (hne : ws ≠ [])
    (h : ∀ c ∈ ws, isSpace c = true) :
    fieldsLoop (ws ++ rest) (some cur) = cur :: fieldsLoop rest none := by
  cases ws with
  | nil => exact absurd rfl hne
  | cons w ws =>
    have hw : isSpace w = true := h w (List.mem_cons_self _ _)
    have hws : ∀ c ∈ ws, isSpace c = true := fun c hc => h c (List.mem_cons_of_mem _ hc)
    rw [List.cons_append]
    simp only [fieldsLoop, hw, if_true]
    rw [fieldsLoop_spaces ws rest hws]

theorem fieldsLoop_token_some (tok rest cur : List Char) (h : ∀ c ∈ tok, isSpace c = false) :
    fieldsLoop (tok ++ rest) (some cur) = fieldsLoop rest (some (cur ++ tok)) := by
  induction tok generalizing cur with
  | nil => simp
  | cons t tok ih =>
    have ht : isSpace t = false := h t (List.mem_cons_self _ _)
    have htok : ∀ c ∈ tok, isSpace c = false := fun c hc => h c (List.mem_cons_of_mem _ hc)
    rw [List.cons_append]
    simp only [fieldsLoop, ht]
    rw [ih (cur ++ [t]) htok]
    simp

theorem fieldsLoop_token_none (tok rest : List Char) (hne : tok ≠ [])
    (h : ∀ c ∈ tok, isSpace c = false) :
    fieldsLoop (tok ++ rest) none = fieldsLoop rest (some tok) := by
  cases tok with
  | nil => exact absurd rfl hne
  | cons t tok =>
    have ht : isSpace t = false := h t (List.mem_cons_self _ _)
    have htok : ∀ c ∈ tok, isSpace c = false := fun c hc => h c (List.mem_cons_of_mem _ hc)
    rw [List.cons_append]
    simp only [fieldsLoop, ht]
    rw [fieldsLoop_token_some tok rest [t] htok]
    simp

theorem fieldsLoop_append_spaces (s ws : List Char) (start : Option (List Char))
    (h : ∀ c ∈ ws, isSpace c = true) :
    fieldsLoop (s ++ ws) start = fieldsLoop s start := by
  induction s generalizing start with
  | nil =>
    cases start with
    | none => simpa [fieldsLoop] using fieldsLoop_spaces ws [] h
    | some cur =>
      cases ws with
      | nil => rfl
      | cons w ws =>
        have := fieldsLoop_some_spaces (w :: ws) [] cur (List.cons_ne_nil _ _) h
        simpa [fieldsLoop] using this
  | cons r rest ih =>
    rw [List.cons_append]
    simp only [fieldsLoop]
    split
    · cases start <;> simp [ih]
    · cases start <;> simp [ih]

theorem fieldsLoop_fields (s : List Char) (start : Option (List Char))
    (hstart : ∀ cur, start = some cur → cur ≠ [] ∧ ∀ c ∈ cur, isSpace c = false) :
    ∀ f ∈ fieldsLoop s start, f ≠ [] ∧ ∀ c ∈ f, isSpace c = false := by
  induction s generalizing start with
  | nil =>
    cases start with
    | none => simp [fieldsLoop]
    | some cur =>
      intro f hf
      simp only [fieldsLoop, List.mem_singleton] at hf
      rw [hf]
      exact hstart cur rfl
  | cons r rest ih =>
    intro f hf
    simp only [fieldsLoop] at hf
    by_cases hr : isSpace r = true
    · rw [if_pos hr] at hf
      cases start with
      | none => exact ih none (by simp) f hf
      | some cur =>
        rcases List.mem_cons.mp hf with h | h
        · rw [h]
          exact hstart cur rfl
        · exact ih none (by simp) f h
    · rw [if_neg hr] at hf
      have hr2 : isSpace r = false := by simpa using hr
      cases start with
      | none =>
        refine ih (some [r]) ?_ f hf
        intro cur hcur
        cases hcur
        exact ⟨by simp, by simpa using hr2⟩
      | some cur =>
        refine ih (some (cur ++ [r])) ?_ f hf
        intro cur2 hcur
        cases hcur
        obtain ⟨_, h2⟩ := hstart cur rfl
        refine ⟨by simp, ?_⟩
        intro c hc
        rcases List.mem_append.mp hc with h | h
        · exact h2 c h
        · rw [List.mem_singleton.mp h]
          exact hr2

/-- Every field that `Fields` returns is non-empty and holds no white space. -/
theorem Fields_fields (s : List Char) :
    ∀ f ∈ Fields s, f ≠ [] ∧ ∀ c ∈ f, isSpace c = false :=
  fieldsLoop_fields s none (by simp)

/-- What `rdropWhile` removes is a suffix of elements satisfying the predicate. -/
theorem rdropWhile_append_spaces (p : Char → Bool) (l : List Char) :
    ∃ t, (∀ c ∈ t, p c = true) ∧ l = l.rdropWhile p ++ t := by
  induction l using List.reverseRecOn with
  | nil => exact ⟨[], by simp, by simp⟩
  | append_singleton l x ih =>
    by_cases hx : p x = true
    · obtain ⟨t, ht, hl⟩ := ih
      refine ⟨t ++ [x], ?_, ?_⟩
      · intro c hc
        rcases List.mem_append.mp hc with hc | hc
        · exact ht c hc
        · simpa [List.mem_singleton.mp hc] using hx
      · rw [List.rdropWhile_concat_pos _ _ _ hx, ← List.append_assoc, ← hl]
    · exact ⟨[], by simp, by rw [List.rdropWhile_concat_neg _ _ _ hx]; simp⟩

/-- Trimming does not change the fields: `strings.Fields` already ignores leading and trailing
white space. -/
theorem Fields_TrimSpace (s : List Char) : Fields (TrimSpace s) = Fields s := by
  obtain ⟨t, ht, hd⟩ := rdropWhile_append_spaces isSpace (s.dropWhile isSpace)
  have hs : s = s.takeWhile isSpace ++ (TrimSpace s ++ t) := by
    have h1 := (List.takeWhile_append_dropWhile isSpace s).symm
    rw [hd] at h1
    exact h1
  have hlead : ∀ c ∈ s.takeWhile isSpace, isSpace c = true :=
    fun c hc => List.mem_takeWhile_imp hc
  have h2 : Fields s = Fields (TrimSpace s) := by
    conv_lhs => rw [hs]
    unfold Fields
    rw [fieldsLoop_spaces _ _ hlead, fieldsLoop_append_spaces _ _ _ ht]
  exact h2.symm

/-- The fields of a well-formed output line `l ++ f ++ m ++ "Mbps" ++ r`. -/
theorem Fields_wellFormed (l f m r u : List Char)
    (hf : ∀ c ∈ f, isSpace c = false) (hfne : f ≠ [])
    (hu : ∀ c ∈ u, isSpace c = false) (hune : u ≠ [])
    (hl : ∀ c ∈ l, isSpace c = true)
    (hm : ∀ c ∈ m, isSpace c = true) (hmne : m ≠ [])
    (hr : ∀ c ∈ r, isSpace c = true) :
    Fields (l ++ f ++ m ++ u ++ r) = [f, u] := by
  unfold Fields
  simp only [List.append_assoc]
  rw [fieldsLoop_spaces _ _ hl, fieldsLoop_token_none _ _ hfne hf,
    fieldsLoop_some_spaces _ _ _ hmne hm, fieldsLoop_token_none _ _ hune hu]
  cases r with
  | nil => rfl
  | cons w ws =>
    have := fieldsLoop_some_spaces (w :: ws) [] u (List.cons_ne_nil _ _) hr
    simp only [List.append_nil] at this
    rw [this]
    rfl

theorem mbpsUnit_noSpace : ∀ c ∈ mbpsUnit, isSpace c = false := by decide

/-- The function `parseOutput` in terms of the fields of the untrimmed input. -/
theorem parseOutput_eq {ε F : Type} (ParseFloat : List Char → Except ε F) (s : List Char) :
    parseOutput ParseFloat s =
      if (Fields s).length ≠ 2 then .error (.malformedOutput (Fields s).length)
      else if (Fields s).getD 1 [] ≠ mbpsUnit then
        .error (.unexpectedUnit ((Fields s).getD 1 []))
      else
        match ParseFloat ((Fields s).getD 0 []) with
        | .error err => .error (.notANumber err)
        | .ok mbps => .ok mbps := by
  simp only [parseOutput, Fields_TrimSpace]

/-! ## The output parser: claims C1 to C4 -/

/-- C1: for every non-empty token `f` without white space that `ParseFloat` accepts with value
`v`, every white space `l` and `r` (possibly empty) and every non-empty white space `m`,
`parseOutput (l ++ f ++ m ++ "Mbps" ++ r)` succeeds and returns exactly `v`. (A token is
non-empty: `strconv.ParseFloat` rejects the empty string.) -/
theorem C1_parseOutput_wellFormed {ε F : Type} (ParseFloat : List Char → Except ε F)
    (l f m r : List Char) (v : F)
    (hf : ∀ c ∈ f, isSpace c = false) (hfne : f ≠ [])
    (hv : ParseFloat f = .ok v)
    (hl : ∀ c ∈ l, isSpace c = true)
    (hm : ∀ c ∈ m, isSpace c = true) (hmne : m ≠ [])
    (hr : ∀ c ∈ r, isSpace c = true) :
    parseOutput ParseFloat (l ++ f ++ m ++ mbpsUnit ++ r) = .ok v := by
  have hF := Fields_wellFormed l f m r mbpsUnit hf hfne mbpsUnit_noSpace (by decide) hl hm hmne hr
  rw [parseOutput_eq, hF]
  simp [hv]

/-- C1 at the sample output `"  12.34 Mbps\n"`: the value returned is 12.34. -/
theorem C1_parseOutput_wellFormed_witness :
    parseOutput decimalParseFloat "  12.34 Mbps\n".toList = .ok ⟨1234, 2⟩ :=
  C1_parseOutput_wellFormed decimalParseFloat "  ".toList "12.34".toList " ".toList
    "\n".toList ⟨1234, 2⟩ (by decide) (by decide) (by decide) (by decide) (by decide)
    (by decide) (by decide)

/-- C2: every input whose number of white-space-separated fields is not exactly 2 makes
`parseOutput` fail with the error "expected 2 fields, got n", `n` being the number of fields,
whatever the fields hold and whatever `ParseFloat` does. -/
theorem C2_parseOutput_fieldCount {ε F : Type} (ParseFloat : List Char → Except ε F)
    (s : List Char) (h : (Fields s).length ≠ 2) :
    parseOutput ParseFloat s = .error (.malformedOutput (Fields s).length) := by
  rw [parseOutput_eq, if_pos h]

/-- C2 at the empty string, a string of white space only, `"12.34"` and
`"12.34 Mbps extra"`. -/
theorem C2_parseOutput_fieldCount_witness :
    parseOutput decimalParseFloat "".toList = .error (.malformedOutput 0)
    ∧ parseOutput decimalParseFloat " \t\n ".toList = .error (.malformedOutput 0)
    ∧ parseOutput decimalParseFloat "12.34".toList = .error (.malformedOutput 1)
    ∧ parseOutput decimalParseFloat "12.34 Mbps extra".toList = .error (.malformedOutput 3) :=
  ⟨C2_parseOutput_fieldCount decimalParseFloat "".toList (by decide),
   C2_parseOutput_fieldCount decimalParseFloat " \t\n ".toList (by decide),
   C2_parseOutput_fieldCount decimalParseFloat "12.34".toList (by decide),
   C2_parseOutput_fieldCount decimalParseFloat "12.34 Mbps extra".toList (by decide)⟩

/-- C3: every input with exactly 2 white-space-separated fields `a` and `b`, where `b` is not
the token `"Mbps"`, makes `parseOutput` fail with the error "expected unit Mbps, got b",
whatever `a` is and whatever `ParseFloat` does on it. -/
theorem C3_parseOutput_unit {ε F : Type} (ParseFloat : List Char → Except ε F)
    (s a b : List Char) (h : Fields s = [a, b]) (hb : b ≠ mbpsUnit) :
    parseOutput ParseFloat s = .error (.unexpectedUnit b) := by
  rw [parseOutput_eq, h]
  simp [hb]

/-- C3 at `"12.34 Kbps"`, `"12.34 mbps"` and `"abc Kbps"`. -/
theorem C3_parseOutput_unit_witness :
    parseOutput decimalParseFloat "12.34 Kbps".toList = .error (.unexpectedUnit "Kbps".toList)
    ∧ parseOutput decimalParseFloat "12.34 mbps".toList
        = .error (.unexpectedUnit "mbps".toList)
    ∧ parseOutput decimalParseFloat "abc Kbps".toList
        = .error (.unexpectedUnit "Kbps".toList) :=
  ⟨C3_parseOutput_unit decimalParseFloat "12.34 Kbps".toList "12.34".toList "Kbps".toList
     (by decide) (by decide),
   C3_parseOutput_unit decimalParseFloat "12.34 mbps".toList "12.34".toList "mbps".toList
     (by decide) (by decide),
   C3_parseOutput_unit decimalParseFloat "abc Kbps".toList "abc".toList "Kbps".toList
     (by decide) (by decide)⟩

/-- C4: when the input has exactly 2 fields, the second being `"Mbps"`, and `ParseFloat`
rejects the first with error `e`, `parseOutput` fails with "value is not float64: e"; and
`parseOutput` returns `v` if and only if the input has exactly two fields, the second is
`"Mbps"` and `ParseFloat` accepts the first with value `v`. -/
theorem C4_parseOutput_notANumber {ε F : Type} (ParseFloat : List Char → Except ε F)
    (s : List Char) :
    (∀ a e, Fields s = [a, mbpsUnit] → ParseFloat a = .error e →
        parseOutput ParseFloat s = .error (.notANumber e))
    ∧ (∀ v, parseOutput ParseFloat s = .ok v ↔
        ∃ a, Fields s = [a, mbpsUnit] ∧ ParseFloat a = .ok v) := by
  constructor
  · intro a e h he
    rw [parseOutput_eq, h]
    simp [he]
  · intro v
    rw [parseOutput_eq]
    constructor
    · intro h
      split at h
      · exact absurd h (by simp)
      · rename_i hlen
        split at h
        · exact absurd h (by simp)
        · rename_i hunit
          have hlen2 : (Fields s).length = 2 := not_not.mp hlen
          have hu : (Fields s).getD 1 [] = mbpsUnit := not_not.mp hunit
          match hF : Fields s, hlen2 with
          | [a, b], _ =>
            rw [hF] at h hu
            simp only [List.getD_cons_succ, List.getD_cons_zero] at h hu
            refine ⟨a, by rw [hu], ?_⟩
            split at h
            · exact absurd h (by simp)
            · rename_i mbps hok
              rw [hok]
              injection h with h
              rw [h]
    · rintro ⟨a, hF, hv⟩
      rw [hF]
      simp [hv]

/-- C4 at `"abc Mbps"` (not a number) and at `"12.34 Mbps"` (success). -/
theorem C4_parseOutput_notANumber_witness :
    parseOutput decimalParseFloat "abc Mbps".toList = .error (.notANumber ())
    ∧ parseOutput decimalParseFloat "12.34 Mbps".toList = .ok ⟨1234, 2⟩ :=
  ⟨(C4_parseOutput_notANumber decimalParseFloat "abc Mbps".toList).1 "abc".toList ()
     (by decide) (by decide),
   ((C4_parseOutput_notANumber decimalParseFloat "12.34 Mbps".toList).2 ⟨1234, 2⟩).mpr
     ⟨"12.34".toList, by decide, by decide⟩⟩


/-! ## Rounding to `float64` and the interval test -/

theorem roundHalfEven_near (q : ℚ) :
    (roundHalfEven q : ℚ) - q ≤ 1 / 2 ∧ q - (roundHalfEven q : ℚ) ≤ 1 / 2 := by
  have h1 := Int.floor_le q
  have h2 := Int.lt_floor_add_one q
  unfold roundHalfEven
  split
  · constructor <;> linarith
  · split
    · push_cast; constructor <;> linarith
    · split
      · constructor <;> linarith
      · push_cast; constructor <;> linarith

theorem roundHalfEven_intCast (n : Int) : roundHalfEven (n : ℚ) = n := by
  simp [roundHalfEven]

theorem roundHalfEven_mono {a b : ℚ} (h : a ≤ b) : roundHalfEven a ≤ roundHalfEven b := by
  rcases eq_or_lt_of_le h with rfl | hlt
  · exact le_rfl
  · by_contra hc
    have hc1 : roundHalfEven b + 1 ≤ roundHalfEven a := by omega
    have hc2 : (roundHalfEven b : ℚ) + 1 ≤ (roundHalfEven a : ℚ) := by exact_mod_cast hc1
    have ha := (roundHalfEven_near a).1
    have hb := (roundHalfEven_near b).2
    linarith


theorem ulp_pos (q : ℚ) : (0 : ℚ) < 2 ^ ulpExponent q := by positivity

theorem ulpExponent_ge (q : ℚ) : -1074 ≤ ulpExponent q := by
  unfold ulpExponent
  have := le_max_right (Int.log 2 |q|) (-1022)
  omega

theorem ulpExponent_mono {a b : ℚ} (ha : 0 < |a|) (h : |a| ≤ |b|) :
    ulpExponent a ≤ ulpExponent b := by
  unfold ulpExponent
  have := Int.log_mono_right (b := 2) ha h
  have := max_le_max_right (-1022 : Int) this
  omega

theorem abs_div_ulp_lt (q : ℚ) : |q| / 2 ^ ulpExponent q < 9007199254740992 := by
  have h1 : |q| < ((2 : ℕ) : ℚ) ^ (Int.log 2 |q| + 1) := Int.lt_zpow_succ_log_self (by norm_num) _
  have h2 : Int.log 2 |q| + 1 ≤ ulpExponent q + 53 := by
    unfold ulpExponent
    have := le_max_left (Int.log 2 |q|) (-1022)
    omega
  have h3 : ((2 : ℕ) : ℚ) ^ (Int.log 2 |q| + 1) ≤ (2 : ℚ) ^ (ulpExponent q + 53) := by
    push_cast
    exact zpow_le_zpow_right₀ (by norm_num) h2
  have h4 : (2 : ℚ) ^ (ulpExponent q + 53) = 9007199254740992 * 2 ^ ulpExponent q := by
    rw [zpow_add₀ (by norm_num : (2 : ℚ) ≠ 0)]
    norm_num
    ring
  rw [div_lt_iff₀ (ulp_pos q)]
  linarith

theorem le_abs_div_ulp (q : ℚ) (hq : 0 < |q|) (hE : -1074 < ulpExponent q) :
    4503599627370496 ≤ |q| / 2 ^ ulpExponent q := by
  have h1 : ((2 : ℕ) : ℚ) ^ Int.log 2 |q| ≤ |q| := Int.zpow_log_le_self (by norm_num) hq
  have h2 : Int.log 2 |q| = ulpExponent q + 52 := by
    unfold ulpExponent at hE ⊢
    rcases max_cases (Int.log 2 |q|) (-1022) with ⟨h, _⟩ | ⟨h, _⟩
    · rw [h]; ring
    · rw [h] at hE; omega
  have h4 : (2 : ℚ) ^ (ulpExponent q + 52) = 4503599627370496 * 2 ^ ulpExponent q := by
    rw [zpow_add₀ (by norm_num : (2 : ℚ) ≠ 0)]
    norm_num
    ring
  rw [h2] at h1
  push_cast at h1
  rw [h4] at h1
  rw [le_div_iff₀ (ulp_pos q)]
  exact h1

theorem roundFloat64_nonneg {q : ℚ} (h : 0 ≤ q) : 0 ≤ roundFloat64 q := by
  unfold roundFloat64
  have h1 : roundHalfEven ((0 : Int) : ℚ) ≤ roundHalfEven (q / 2 ^ ulpExponent q) :=
    roundHalfEven_mono (by simpa using div_nonneg h (ulp_pos q).le)
  rw [roundHalfEven_intCast] at h1
  have h2 : (0 : ℚ) ≤ (roundHalfEven (q / 2 ^ ulpExponent q) : ℚ) := by exact_mod_cast h1
  exact mul_nonneg h2 (ulp_pos q).le

theorem roundFloat64_nonpos {q : ℚ} (h : q ≤ 0) : roundFloat64 q ≤ 0 := by
  unfold roundFloat64
  have h1 : roundHalfEven (q / 2 ^ ulpExponent q) ≤ roundHalfEven ((0 : Int) : ℚ) :=
    roundHalfEven_mono (by simpa using div_nonpos_of_nonpos_of_nonneg h (ulp_pos q).le)
  rw [roundHalfEven_intCast] at h1
  have h2 : (roundHalfEven (q / 2 ^ ulpExponent q) : ℚ) ≤ 0 := by exact_mod_cast h1
  exact mul_nonpos_of_nonpos_of_nonneg h2 (ulp_pos q).le

/-- Bounds of the rounded significand of a positive number. -/
theorem roundHalfEven_scaled_pos {q : ℚ} (hq : 0 < q) :
    (roundHalfEven (q / 2 ^ ulpExponent q) : ℚ) ≤ 9007199254740992
    ∧ (-1074 < ulpExponent q →
        (4503599627370496 : ℚ) ≤ (roundHalfEven (q / 2 ^ ulpExponent q) : ℚ)) := by
  have habs : |q| = q := abs_of_pos hq
  constructor
  · have h := abs_div_ulp_lt q
    rw [habs] at h
    have h1 : roundHalfEven (q / 2 ^ ulpExponent q)
        ≤ roundHalfEven ((9007199254740992 : Int) : ℚ) :=
      roundHalfEven_mono (by push_cast; exact h.le)
    rw [roundHalfEven_intCast] at h1
    exact_mod_cast h1
  · intro hE
    have h := le_abs_div_ulp q (by rw [habs]; exact hq) hE
    rw [habs] at h
    have h1 : roundHalfEven ((4503599627370496 : Int) : ℚ)
        ≤ roundHalfEven (q / 2 ^ ulpExponent q) :=
      roundHalfEven_mono (by push_cast; exact h)
    rw [roundHalfEven_intCast] at h1
    exact_mod_cast h1

/-- Bounds of the rounded significand of a negative number. -/
theorem roundHalfEven_scaled_neg {q : ℚ} (hq : q < 0) :
    (-9007199254740992 : ℚ) ≤ (roundHalfEven (q / 2 ^ ulpExponent q) : ℚ)
    ∧ (-1074 < ulpExponent q →
        (roundHalfEven (q / 2 ^ ulpExponent q) : ℚ) ≤ -4503599627370496) := by
  have habs : |q| = -q := abs_of_neg hq
  constructor
  · have h := abs_div_ulp_lt q
    rw [habs, neg_div] at h
    have h1 : roundHalfEven ((-9007199254740992 : Int) : ℚ)
        ≤ roundHalfEven (q / 2 ^ ulpExponent q) :=
      roundHalfEven_mono (by push_cast; linarith)
    rw [roundHalfEven_intCast] at h1
    exact_mod_cast h1
  · intro hE
    have h := le_abs_div_ulp q (by rw [habs]; linarith) hE
    rw [habs, neg_div] at h
    have h1 : roundHalfEven (q / 2 ^ ulpExponent q)
        ≤ roundHalfEven ((-4503599627370496 : Int) : ℚ) :=
      roundHalfEven_mono (by push_cast; linarith)
    rw [roundHalfEven_intCast] at h1
    exact_mod_cast h1

theorem zpow_two_step {a b : Int} (h : a < b) :
    (9007199254740992 : ℚ) * 2 ^ a ≤ 4503599627370496 * 2 ^ b := by
  have h1 : (2 : ℚ) ^ (a + 1) ≤ 2 ^ b := zpow_le_zpow_right₀ (by norm_num) (by omega)
  rw [zpow_add₀ (by norm_num : (2 : ℚ) ≠ 0)] at h1
  norm_num at h1
  linarith

theorem roundFloat64_mono (x y : ℚ) (h : x ≤ y) : roundFloat64 x ≤ roundFloat64 y := by
  rcases le_or_lt x 0 with hx | hx
  · rcases le_or_lt 0 y with hy | hy
    · exact (roundFloat64_nonpos hx).trans (roundFloat64_nonneg hy)
    · -- x ≤ y < 0
      have hx0 : x < 0 := lt_of_le_of_lt h hy
      have hE : ulpExponent y ≤ ulpExponent x :=
        ulpExponent_mono (abs_pos.mpr hy.ne) (by rw [abs_of_neg hy, abs_of_neg hx0]; linarith)
      rcases eq_or_lt_of_le hE with heq | hlt
      · unfold roundFloat64
        rw [heq]
        have h1 : roundHalfEven (x / 2 ^ ulpExponent x) ≤ roundHalfEven (y / 2 ^ ulpExponent x) :=
          roundHalfEven_mono (div_le_div_of_nonneg_right h (ulp_pos x).le)
        have h2 : (roundHalfEven (x / 2 ^ ulpExponent x) : ℚ)
            ≤ (roundHalfEven (y / 2 ^ ulpExponent x) : ℚ) := by exact_mod_cast h1
        exact mul_le_mul_of_nonneg_right h2 (ulp_pos x).le
      · have hxb := (roundHalfEven_scaled_neg hx0).2 (lt_of_le_of_lt (ulpExponent_ge y) hlt)
        have hyb := (roundHalfEven_scaled_neg hy).1
        have hs := zpow_two_step hlt
        unfold roundFloat64
        have h3 := mul_le_mul_of_nonneg_right hxb (ulp_pos x).le
        have h4 := mul_le_mul_of_nonneg_right hyb (ulp_pos y).le
        linarith
  · -- 0 < x ≤ y
    have hy : 0 < y := lt_of_lt_of_le hx h
    have hE : ulpExponent x ≤ ulpExponent y :=
      ulpExponent_mono (abs_pos.mpr hx.ne') (by rw [abs_of_pos hx, abs_of_pos hy]; exact h)
    rcases eq_or_lt_of_le hE with heq | hlt
    · unfold roundFloat64
      rw [heq]
      have h1 : roundHalfEven (x / 2 ^ ulpExponent y) ≤ roundHalfEven (y / 2 ^ ulpExponent y) :=
        roundHalfEven_mono (div_le_div_of_nonneg_right h (ulp_pos y).le)
      have h2 : (roundHalfEven (x / 2 ^ ulpExponent y) : ℚ)
          ≤ (roundHalfEven (y / 2 ^ ulpExponent y) : ℚ) := by exact_mod_cast h1
      exact mul_le_mul_of_nonneg_right h2 (ulp_pos y).le
    · have hxb := (roundHalfEven_scaled_pos hx).1
      have hyb := (roundHalfEven_scaled_pos hy).2 (lt_of_le_of_lt (ulpExponent_ge x) hlt)
      have hs := zpow_two_step hlt
      unfold roundFloat64
      have h3 := mul_le_mul_of_nonneg_right hxb (ulp_pos x).le
      have h4 := mul_le_mul_of_nonneg_right hyb (ulp_pos y).le
      linarith


theorem roundFloat64_of_scaled_int (q : ℚ) (n : Int) (h : q / 2 ^ ulpExponent q = n) :
    roundFloat64 q = q := by
  unfold roundFloat64
  rw [h, roundHalfEven_intCast, ← h]
  exact div_mul_cancel₀ q (ulp_pos q).ne'

theorem roundFloat64_exact (m : Int) (e : Nat) (hm : |m| ≤ 2 ^ 53) (he : e ≤ 1074) :
    roundFloat64 ((m : ℚ) / 2 ^ e) = (m : ℚ) / 2 ^ e := by
  rcases eq_or_ne m 0 with rfl | hm0
  · exact roundFloat64_of_scaled_int _ 0 (by simp)
  · have h2 : (2 : ℚ) ≠ 0 := by norm_num
    have hpe : (0 : ℚ) < 2 ^ e := by positivity
    have habs : |(m : ℚ) / 2 ^ e| = |(m : ℚ)| / 2 ^ e := by
      rw [abs_div, abs_of_pos hpe]
    have hmq : |(m : ℚ)| ≤ 9007199254740992 := by
      have : ((|m| : Int) : ℚ) ≤ ((2 ^ 53 : Int) : ℚ) := by exact_mod_cast hm
      simpa using this
    have hqpos : 0 < |(m : ℚ) / 2 ^ e| := abs_pos.mpr (div_ne_zero (by exact_mod_cast hm0) hpe.ne')
    have hscaled : ∀ E : Int, (m : ℚ) / 2 ^ e / 2 ^ E = (m : ℚ) * 2 ^ (-(e : Int) - E) := by
      intro E
      rw [sub_eq_add_neg, zpow_add₀ h2, zpow_neg, zpow_neg, zpow_natCast]
      field_simp
    rcases le_or_lt (ulpExponent ((m : ℚ) / 2 ^ e)) (-(e : Int)) with hA | hB
    · -- the unit in the last place divides `2 ^ (-e)`
      obtain ⟨k, hk⟩ := Int.eq_ofNat_of_zero_le (show 0 ≤ -(e : Int) - ulpExponent ((m : ℚ) / 2 ^ e) by omega)
      refine roundFloat64_of_scaled_int _ (m * 2 ^ k) ?_
      rw [hscaled, hk, zpow_natCast]
      push_cast
      rfl
    · -- only `|m| = 2 ^ 53` is left
      have hL : (53 : Int) - e ≤ Int.log 2 |(m : ℚ) / 2 ^ e| := by
        unfold ulpExponent at hB
        rcases max_cases (Int.log 2 |(m : ℚ) / 2 ^ e|) (-1022) with ⟨h, _⟩ | ⟨h, _⟩
        · rw [h] at hB; omega
        · rw [h] at hB; omega
      have h1 : ((2 : ℕ) : ℚ) ^ Int.log 2 |(m : ℚ) / 2 ^ e| ≤ |(m : ℚ) / 2 ^ e| :=
        Int.zpow_log_le_self (by norm_num) hqpos
      have h3 : (2 : ℚ) ^ ((53 : Int) - e) ≤ ((2 : ℕ) : ℚ) ^ Int.log 2 |(m : ℚ) / 2 ^ e| := by
        push_cast
        exact zpow_le_zpow_right₀ (by norm_num) hL
      have h4 : (2 : ℚ) ^ ((53 : Int) - e) = 9007199254740992 / 2 ^ e := by
        rw [zpow_sub₀ h2, zpow_natCast]
        norm_num
      have h5 : (9007199254740992 : ℚ) ≤ |(m : ℚ)| := by
        have := h3.trans h1
        rw [h4, habs] at this
        exact (div_le_div_iff_of_pos_right hpe).mp this
      have h6 : |(m : ℚ)| = 9007199254740992 := le_antisymm hmq h5
      have hqv : |(m : ℚ) / 2 ^ e| = ((2 : ℕ) : ℚ) ^ ((53 : Int) - e) := by
        rw [habs, h6]
        push_cast
        exact h4.symm
      have hE : ulpExponent ((m : ℚ) / 2 ^ e) = 1 - e := by
        unfold ulpExponent
        rw [hqv, Int.log_zpow (by norm_num)]
        have : max ((53 : Int) - e) (-1022) = 53 - e := max_eq_left (by omega)
        rw [this]
        ring
      have hsc : (m : ℚ) / 2 ^ e / 2 ^ ulpExponent ((m : ℚ) / 2 ^ e) = (m : ℚ) / 2 := by
        rw [hscaled, hE]
        have : -(e : Int) - (1 - e) = -1 := by ring
        rw [this]
        norm_num
        ring
      rcases abs_eq (by norm_num : (0 : ℚ) ≤ 9007199254740992) |>.mp h6 with hp | hn
      · refine roundFloat64_of_scaled_int _ 4503599627370496 ?_
        rw [hsc, hp]
        norm_num
      · refine roundFloat64_of_scaled_int _ (-4503599627370496) ?_
        rw [hsc, hn]
        norm_num

theorem float64Rounding_roundFloat64 : Float64Rounding roundFloat64 :=
  ⟨roundFloat64_mono, roundFloat64_exact⟩

/-- Go's truncated division by `Second`, below and from 15 seconds on. -/
theorem tdiv_tmod_second (d : Int) :
    (d < 15000000000 → d.tdiv 1000000000 ≤ 14 ∧ d.tmod 1000000000 ≤ 999999999)
    ∧ (15000000000 ≤ d → 15 ≤ d.tdiv 1000000000 ∧ 0 ≤ d.tmod 1000000000) := by
  rcases le_or_lt 0 d with h0 | h0
  · rw [Int.tdiv_eq_ediv h0 (by norm_num), Int.tmod_eq_emod h0 (by norm_num)]
    constructor <;> intro h <;> omega
  · have hneg : d = -(-d) := by omega
    have h1 : 0 ≤ -d := by omega
    have hq : d.tdiv 1000000000 = -((-d) / 1000000000) := by
      conv_lhs => rw [hneg, Int.neg_tdiv, Int.tdiv_eq_ediv h1 (by norm_num)]
    have hr : d.tmod 1000000000 = d - 1000000000 * d.tdiv 1000000000 := Int.tmod_def _ _
    rw [hr, hq]
    constructor <;> intro h <;> omega

theorem Seconds_lt_iff (rnd : ℚ → ℚ) (h : Float64Rounding rnd) (d : Int) :
    Seconds rnd d < 15 ↔ d < 15000000000 := by
  have e14 : rnd 14 = 14 := by simpa using h.exact 14 0 (by norm_num) (by norm_num)
  have e15 : rnd 15 = 15 := by simpa using h.exact 15 0 (by norm_num) (by norm_num)
  have e0 : rnd 0 = 0 := by simpa using h.exact 0 0 (by norm_num) (by norm_num)
  have en : rnd 999999999 = 999999999 := by
    simpa using h.exact 999999999 0 (by norm_num) (by norm_num)
  have ef : rnd (562949953421311 / 2 ^ 49) = 562949953421311 / 2 ^ 49 := by
    simpa using h.exact 562949953421311 49 (by norm_num) (by norm_num)
  have es : rnd (8444249301319679 / 2 ^ 49) = 8444249301319679 / 2 ^ 49 := by
    simpa using h.exact 8444249301319679 49 (by norm_num) (by norm_num)
  obtain ⟨hlt, hge⟩ := tdiv_tmod_second d
  unfold Seconds
  constructor
  · intro hs
    by_contra hd
    obtain ⟨hsec, hnsec⟩ := hge (by omega)
    have h1 : (15 : ℚ) ≤ rnd ((d.tdiv 1000000000 : Int) : ℚ) := by
      rw [← e15]
      exact h.mono _ _ (by exact_mod_cast hsec)
    have h2 : (0 : ℚ) ≤ rnd ((d.tmod 1000000000 : Int) : ℚ) := by
      rw [← e0]
      exact h.mono _ _ (by exact_mod_cast hnsec)
    have h3 : (0 : ℚ) ≤ rnd (rnd ((d.tmod 1000000000 : Int) : ℚ) / 1000000000) := by
      rw [← e0]
      exact h.mono _ _ (by positivity)
    have h4 : (15 : ℚ) ≤ rnd (rnd ((d.tdiv 1000000000 : Int) : ℚ)
        + rnd (rnd ((d.tmod 1000000000 : Int) : ℚ) / 1000000000)) := by
      rw [← e15]
      exact h.mono _ _ (by linarith)
    exact absurd hs (not_lt.mpr h4)
  · intro hd
    obtain ⟨hsec, hnsec⟩ := hlt hd
    have h1 : rnd ((d.tdiv 1000000000 : Int) : ℚ) ≤ 14 := by
      rw [← e14]
      exact h.mono _ _ (by exact_mod_cast hsec)
    have h2 : rnd ((d.tmod 1000000000 : Int) : ℚ) ≤ 999999999 := by
      rw [← en]
      exact h.mono _ _ (by exact_mod_cast hnsec)
    have h3 : rnd (rnd ((d.tmod 1000000000 : Int) : ℚ) / 1000000000)
        ≤ 562949953421311 / 2 ^ 49 := by
      rw [← ef]
      refine h.mono _ _ ?_
      have : rnd ((d.tmod 1000000000 : Int) : ℚ) / 1000000000 ≤ 999999999 / 1000000000 :=
        div_le_div_of_nonneg_right h2 (by norm_num)
      refine this.trans ?_
      norm_num
    have h4 : rnd (rnd ((d.tdiv 1000000000 : Int) : ℚ)
        + rnd (rnd ((d.tmod 1000000000 : Int) : ℚ) / 1000000000))
        ≤ 8444249301319679 / 2 ^ 49 := by
      rw [← es]
      refine h.mono _ _ ?_
      have : (14 : ℚ) + 562949953421311 / 2 ^ 49 ≤ 8444249301319679 / 2 ^ 49 := by norm_num
      linarith
    refine lt_of_le_of_lt h4 ?_
    norm_num


/-! ## The measurement cycle: claims C5 to C7 -/

/-- C5: from every prior state, a cycle whose subprocess succeeds with an output that parses to
`v` leaves the error counters of both reasons unchanged, sets the gauge to `v`, adds exactly
one observation, of `v`, to the throughput histogram and exactly one observation to the
latency histogram. -/
theorem C5_runTest_success {ε F : Type} (ParseFloat : List Char → Except ε F)
    (c : Cycle ε F) (st : State ε F) (b : List Char) (v : F)
    (hout : c.output = .ok b) (hparse : parseOutput ParseFloat b = .ok v) :
    (runTest ParseFloat c st).errorCounter "command" = st.errorCounter "command"
    ∧ (runTest ParseFloat c st).errorCounter "unexpected_output"
        = st.errorCounter "unexpected_output"
    ∧ (runTest ParseFloat c st).mbpsGauge = v
    ∧ (runTest ParseFloat c st).mbpsDistribution = st.mbpsDistribution ++ [v]
    ∧ (runTest ParseFloat c st).latencyDistribution = st.latencyDistribution ++ [c.elapsed] := by
  simp [runTest, hout, hparse, State.logLine]

/-- C5 from `sampleState`, with the output `"100.00 Mbps"`. -/
theorem C5_runTest_success_witness :
    (runTest decimalParseFloat (stubCycle ⟨8, 0⟩) sampleState).errorCounter "command" = 4
    ∧ (runTest decimalParseFloat (stubCycle ⟨8, 0⟩) sampleState).errorCounter
        "unexpected_output" = 2
    ∧ (runTest decimalParseFloat (stubCycle ⟨8, 0⟩) sampleState).mbpsGauge = ⟨10000, 2⟩
    ∧ (runTest decimalParseFloat (stubCycle ⟨8, 0⟩) sampleState).mbpsDistribution
        = [⟨935, 1⟩, ⟨2505, 2⟩, ⟨10000, 2⟩]
    ∧ (runTest decimalParseFloat (stubCycle ⟨8, 0⟩) sampleState).latencyDistribution
        = [⟨11, 0⟩, ⟨12, 0⟩, ⟨9, 0⟩, ⟨8, 0⟩] :=
  C5_runTest_success decimalParseFloat (stubCycle ⟨8, 0⟩) sampleState "100.00 Mbps".toList
    ⟨10000, 2⟩ rfl (by decide)

/-- C6: from every prior state, a cycle whose subprocess invocation fails increments the
counter of reason "command" by exactly 1, leaves the counter of reason "unexpected_output",
the gauge and the throughput histogram as they were, and adds exactly one observation to the
latency histogram; the result does not depend on the parser. -/
theorem C6_runTest_commandError {ε F : Type} (ParseFloat : List Char → Except ε F)
    (c : Cycle ε F) (st : State ε F) (err : ε) (hout : c.output = .error err) :
    (runTest ParseFloat c st).errorCounter "command" = st.errorCounter "command" + 1
    ∧ (runTest ParseFloat c st).errorCounter "unexpected_output"
        = st.errorCounter "unexpected_output"
    ∧ (runTest ParseFloat c st).mbpsGauge = st.mbpsGauge
    ∧ (runTest ParseFloat c st).mbpsDistribution = st.mbpsDistribution
    ∧ (runTest ParseFloat c st).latencyDistribution = st.latencyDistribution ++ [c.elapsed]
    ∧ ∀ ParseFloat2 : List Char → Except ε F,
        runTest ParseFloat2 c st = runTest ParseFloat c st := by
  simp [runTest, hout, State.logLine, State.incError]

/-- C6 from `sampleState`, the subprocess having failed. -/
theorem C6_runTest_commandError_witness :
    (runTest decimalParseFloat ⟨.error (), ⟨14, 0⟩⟩ sampleState).errorCounter "command" = 5
    ∧ (runTest decimalParseFloat ⟨.error (), ⟨14, 0⟩⟩ sampleState).errorCounter
        "unexpected_output" = 2
    ∧ (runTest decimalParseFloat ⟨.error (), ⟨14, 0⟩⟩ sampleState).mbpsGauge = ⟨2505, 2⟩
    ∧ (runTest decimalParseFloat ⟨.error (), ⟨14, 0⟩⟩ sampleState).mbpsDistribution
        = [⟨935, 1⟩, ⟨2505, 2⟩]
    ∧ (runTest decimalParseFloat ⟨.error (), ⟨14, 0⟩⟩ sampleState).latencyDistribution
        = [⟨11, 0⟩, ⟨12, 0⟩, ⟨9, 0⟩, ⟨14, 0⟩]
    ∧ ∀ ParseFloat2 : List Char → Except Unit Decimal,
        runTest ParseFloat2 ⟨.error (), ⟨14, 0⟩⟩ sampleState
          = runTest decimalParseFloat ⟨.error (), ⟨14, 0⟩⟩ sampleState :=
  C6_runTest_commandError decimalParseFloat ⟨.error (), ⟨14, 0⟩⟩ sampleState () rfl

/-- C7: from every prior state, a cycle whose subprocess succeeds but whose output
`parseOutput` rejects increments the counter of reason "unexpected_output" by exactly 1,
leaves the counter of reason "command", the gauge and the throughput histogram as they were,
and adds exactly one observation to the latency histogram; and every cycle, whatever its
outcome, adds exactly one observation, the elapsed time, to the latency histogram. -/
theorem C7_runTest_parseError {ε F : Type} (ParseFloat : List Char → Except ε F)
    (c : Cycle ε F) (st : State ε F) :
    (∀ b err, c.output = .ok b → parseOutput ParseFloat b = .error err →
      (runTest ParseFloat c st).errorCounter "unexpected_output"
          = st.errorCounter "unexpected_output" + 1
      ∧ (runTest ParseFloat c st).errorCounter "command" = st.errorCounter "command"
      ∧ (runTest ParseFloat c st).mbpsGauge = st.mbpsGauge
      ∧ (runTest ParseFloat c st).mbpsDistribution = st.mbpsDistribution)
    ∧ (runTest ParseFloat c st).latencyDistribution
        = st.latencyDistribution ++ [c.elapsed] := by
  constructor
  · intro b err hout hparse
    simp [runTest, hout, hparse, State.logLine, State.incError]
  · simp only [runTest]
    split
    · simp [State.logLine, State.incError]
    · split <;> simp [State.logLine, State.incError]

/-- C7 from `sampleState`, with the output `"12.34 Kbps"`. -/
theorem C7_runTest_parseError_witness :
    (runTest decimalParseFloat ⟨.ok "12.34 Kbps".toList, ⟨6, 0⟩⟩ sampleState).errorCounter
        "unexpected_output" = 3
    ∧ (runTest decimalParseFloat ⟨.ok "12.34 Kbps".toList, ⟨6, 0⟩⟩ sampleState).errorCounter
        "command" = 4
    ∧ (runTest decimalParseFloat ⟨.ok "12.34 Kbps".toList, ⟨6, 0⟩⟩ sampleState).mbpsGauge
        = ⟨2505, 2⟩
    ∧ (runTest decimalParseFloat ⟨.ok "12.34 Kbps".toList, ⟨6, 0⟩⟩
        sampleState).mbpsDistribution = [⟨935, 1⟩, ⟨2505, 2⟩]
    ∧ (runTest decimalParseFloat ⟨.ok "12.34 Kbps".toList, ⟨6, 0⟩⟩
        sampleState).latencyDistribution = [⟨11, 0⟩, ⟨12, 0⟩, ⟨9, 0⟩, ⟨6, 0⟩] :=
  have h := C7_runTest_parseError decimalParseFloat ⟨.ok "12.34 Kbps".toList, ⟨6, 0⟩⟩
    sampleState
  have h1 := h.1 "12.34 Kbps".toList (.unexpectedUnit "Kbps".toList) rfl (by decide)
  ⟨h1.1, h1.2.1, h1.2.2.1, h1.2.2.2, h.2⟩


/-! ## Startup and the scheduler: claims C8 to C10 -/

theorem step_exited {ε F : Type} (ParseFloat : List Char → Except ε F) (p : Proc ε F)
    (code : Nat) (h : p.status = .exited code) (e : Event ε F) : step ParseFloat p e = p := by
  cases e <;> simp [step, h]

theorem foldl_step_exited {ε F : Type} (ParseFloat : List Char → Except ε F)
    (events : List (Event ε F)) (p : Proc ε F) (code : Nat) (h : p.status = .exited code) :
    events.foldl (step ParseFloat) p = p := by
  induction events with
  | nil => rfl
  | cons e es ih => rw [List.foldl_cons, step_exited ParseFloat p code h e, ih]

theorem parseOutput_of_fields {ε F : Type} (ParseFloat : List Char → Except ε F)
    (s a : List Char) (v : F) (hF : Fields s = [a, mbpsUnit]) (hv : ParseFloat a = .ok v) :
    parseOutput ParseFloat s = .ok v := by
  rw [parseOutput_eq, hF]
  simp [hv]

theorem parseOutput_stub {ε F : Type} (ParseFloat : List Char → Except ε F) (v : F)
    (hv : ParseFloat "100.00".toList = .ok v) :
    parseOutput ParseFloat "100.00 Mbps".toList = .ok v :=
  parseOutput_of_fields ParseFloat _ _ v (by decide) hv

/-- One cycle with the stub as subprocess. -/
theorem runTest_stub {ε F : Type} (ParseFloat : List Char → Except ε F) (v : F)
    (hv : ParseFloat "100.00".toList = .ok v) (e : F) (st : State ε F) :
    runTest ParseFloat (stubCycle e) st =
      { errorCounter := st.errorCounter
        mbpsDistribution := st.mbpsDistribution ++ [v]
        mbpsGauge := v
        latencyDistribution := st.latencyDistribution ++ [e]
        log := st.log ++ [.recorded v] } := by
  have hp := parseOutput_stub ParseFloat v hv
  simp only [runTest, stubCycle, hp, State.logLine]

/-- Timer firings with the stub as subprocess: each adds one observation of `v` and one of
the elapsed time and counts no error. -/
theorem foldl_ticks_stub {ε F : Type} (ParseFloat : List Char → Except ε F) (v : F)
    (hv : ParseFloat "100.00".toList = .ok v) (es : List F) (p : Proc ε F)
    (hrun : p.status = .running) (hg : p.st.mbpsGauge = v) :
    ((es.map (fun e => Event.tick (stubCycle e))).foldl (step ParseFloat) p).status = .running
    ∧ ((es.map (fun e => Event.tick (stubCycle e))).foldl (step ParseFloat) p).st.mbpsDistribution
        = p.st.mbpsDistribution ++ List.replicate es.length v
    ∧ ((es.map (fun e => Event.tick (stubCycle e))).foldl (step ParseFloat)
        p).st.latencyDistribution = p.st.latencyDistribution ++ es
    ∧ ((es.map (fun e => Event.tick (stubCycle e))).foldl (step ParseFloat) p).st.mbpsGauge = v
    ∧ ((es.map (fun e => Event.tick (stubCycle e))).foldl (step ParseFloat) p).st.errorCounter
        = p.st.errorCounter := by
  induction es generalizing p with
  | nil => simp [hrun, hg]
  | cons e es ih =>
    have hstep : step ParseFloat p (Event.tick (stubCycle e))
        = { p with st := runTest ParseFloat (stubCycle e) p.st } := by
      simp only [step, hrun, if_true]
    rw [List.map_cons, List.foldl_cons, hstep, runTest_stub ParseFloat v hv]
    obtain ⟨h1, h2, h3, h4, h5⟩ := ih
      { p with st :=
          { errorCounter := p.st.errorCounter
            mbpsDistribution := p.st.mbpsDistribution ++ [v]
            mbpsGauge := v
            latencyDistribution := p.st.latencyDistribution ++ [e]
            log := p.st.log ++ [.recorded v] } } hrun rfl
    refine ⟨h1, ?_, ?_, h4, ?_⟩
    · rw [h2]
      simp [List.replicate_succ]
    · rw [h3]
      simp
    · rw [h5]

/-- An event leaves the lines already logged in place. -/
theorem step_log_head {ε F : Type} (ParseFloat : List Char → Except ε F) (p : Proc ε F)
    (e : Event ε F) (x : LogEntry ε F) (h : p.st.log.head? = some x) :
    (step ParseFloat p e).st.log.head? = some x := by
  have happ : ∀ t : List (LogEntry ε F), (p.st.log ++ t).head? = some x := by
    intro t
    cases hl : p.st.log with
    | nil => rw [hl] at h; simp at h
    | cons a l => rw [hl] at h; simpa using h
  cases e with
  | signal =>
    simp only [step, Proc.cancel]
    split
    · split <;> exact h
    · exact h
  | listenAndServe err =>
    simp only [step, Proc.cancel, State.logLine]
    split
    · split <;> exact happ _
    · exact h
  | tick c =>
    simp only [step, runTest, State.logLine, State.incError]
    split
    · split
      · exact happ _
      · split <;> exact happ _
    · exact h
  | done =>
    simp only [step, Proc.fatal, State.logLine]
    split
    · split
      · exact h
      · split <;> exact happ _
    · exact h

theorem foldl_step_log_head {ε F : Type} (ParseFloat : List Char → Except ε F)
    (events : List (Event ε F)) (p : Proc ε F) (x : LogEntry ε F)
    (h : p.st.log.head? = some x) :
    (events.foldl (step ParseFloat) p).st.log.head? = some x := by
  induction events generalizing p with
  | nil => exact h
  | cons e es ih => exact ih _ (step_log_head ParseFloat p e x h)

/-- Past the interval check the log never starts with the line of that check. -/
theorem afterIntervalCheck_log_head {ε F : Type} [Zero F]
    (ParseFloat : List Char → Except ε F) (lookPath : Except ε (List Char))
    (first : Cycle ε F) (events : List (Event ε F)) (d : Int) :
    (afterIntervalCheck ParseFloat lookPath first events).st.log.head?
      ≠ some (.intervalTooShort d) := by
  unfold afterIntervalCheck
  split
  · simp [Proc.fatal, Proc.init, State.fresh, State.logLine]
  · have hfirst : ∃ x, (runTest ParseFloat first (Proc.init ε F).st).log.head? = some x
        ∧ x ≠ .intervalTooShort d := by
      simp only [runTest, State.logLine, State.incError, Proc.init, State.fresh]
      split
      · exact ⟨.unableToExecute _, rfl, by simp⟩
      · split
        · exact ⟨.unableToParse _, rfl, by simp⟩
        · exact ⟨.recorded _, rfl, by simp⟩
    obtain ⟨x, hx, hne⟩ := hfirst
    rw [foldl_step_log_head ParseFloat events _ x hx]
    simpa using hne

/-- The context of `main` is only ever cancelled, so the loop never takes the `Fatalf` of
`case <-ctx.Done()`: an event keeps the process running or exits with status 0. -/
theorem step_canceled {ε F : Type} (ParseFloat : List Char → Except ε F) (p : Proc ε F)
    (e : Event ε F)
    (hctx : p.ctxErr = none ∨ p.ctxErr = some .canceled)
    (hst : p.status = .running ∨ p.status = .exited 0) :
    ((step ParseFloat p e).ctxErr = none ∨ (step ParseFloat p e).ctxErr = some .canceled)
    ∧ ((step ParseFloat p e).status = .running ∨ (step ParseFloat p e).status = .exited 0) := by
  rcases hst with hrun | hex
  · cases e with
    | signal => rcases hctx with h | h <;> simp [step, Proc.cancel, hrun, h]
    | listenAndServe err => rcases hctx with h | h <;> simp [step, Proc.cancel, hrun, h]
    | tick c => simp [step, hrun, hctx]
    | done => rcases hctx with h | h <;> simp [step, hrun, h]
  · rw [step_exited ParseFloat p 0 hex e]
    exact ⟨hctx, Or.inr hex⟩

/-- Once both startup checks have passed, no sequence of events ends in a nonzero exit
status. -/
theorem afterIntervalCheck_status {ε F : Type} [Zero F] (ParseFloat : List Char → Except ε F)
    (path : List Char) (first : Cycle ε F) (events : List (Event ε F)) :
    (afterIntervalCheck ParseFloat (.ok path) first events).status = .running
    ∨ (afterIntervalCheck ParseFloat (.ok path) first events).status = .exited 0 := by
  have hgen : ∀ (evs : List (Event ε F)) (p : Proc ε F),
      (p.ctxErr = none ∨ p.ctxErr = some .canceled) →
      (p.status = .running ∨ p.status = .exited 0) →
      ((evs.foldl (step ParseFloat) p).status = .running
        ∨ (evs.foldl (step ParseFloat) p).status = .exited 0) := by
    intro evs
    induction evs with
    | nil => intro p _ hst; exact hst
    | cons e es ih =>
      intro p hctx hst
      obtain ⟨h1, h2⟩ := step_canceled ParseFloat p e hctx hst
      exact ih _ h1 h2
  exact hgen events _ (Or.inl rfl) (Or.inl rfl)

/-- C8, amended: with `float64` rounding as in `Float64Rounding`, for every interval `d` in
nanoseconds (negative, zero and 15 s minus 1 ns included) the test `interval.Seconds() < 15`
is taken exactly when `d` is below 15 s. Below 15 s `main` exits with status 1 on the line
"Interval ... must be >= 15s", the server goroutine not started and no cycle run, whatever
happens around it; from 15 s on the check passes and `main` goes on with `exec.LookPath`; the
log of a run starts with the line of the interval check exactly when `d` is below 15 s; and
startup aborts fatally before any cycle and before the server goroutine exactly when `d` is
below 15 s or `exec.LookPath` fails, so that with `fast-cli` found it does so if and only if
`d` is below 15 s. -/
theorem C8_intervalCheck {ε F : Type} [Zero F] (rnd : ℚ → ℚ) (hrnd : Float64Rounding rnd)
    (ParseFloat : List Char → Except ε F) (d : Int) (lookPath : Except ε (List Char))
    (first : Cycle ε F) (events : List (Event ε F)) :
    (Seconds rnd d < 15 ↔ d < 15000000000)
    ∧ (d < 15000000000 →
        (main rnd ParseFloat d lookPath first events).status = .exited 1
        ∧ (main rnd ParseFloat d lookPath first events).st.log = [.intervalTooShort d]
        ∧ (main rnd ParseFloat d lookPath first events).serverStarted = false
        ∧ (main rnd ParseFloat d lookPath first events).st.latencyDistribution = []
        ∧ (main rnd ParseFloat d lookPath first events).st.mbpsDistribution = [])
    ∧ (15000000000 ≤ d →
        main rnd ParseFloat d lookPath first events
          = afterIntervalCheck ParseFloat lookPath first events)
    ∧ ((main rnd ParseFloat d lookPath first events).st.log.head? = some (.intervalTooShort d)
        ↔ d < 15000000000)
    ∧ (((main rnd ParseFloat d lookPath first events).status = .exited 1
          ∧ (main rnd ParseFloat d lookPath first events).serverStarted = false
          ∧ (main rnd ParseFloat d lookPath first events).st.latencyDistribution = []
          ∧ (main rnd ParseFloat d lookPath first events).st.mbpsDistribution = [])
        ↔ (d < 15000000000 ∨ ∃ err, lookPath = .error err))
    ∧ (∀ path, lookPath = .ok path →
        (((main rnd ParseFloat d lookPath first events).status = .exited 1
          ∧ (main rnd ParseFloat d lookPath first events).serverStarted = false
          ∧ (main rnd ParseFloat d lookPath first events).st.latencyDistribution = []
          ∧ (main rnd ParseFloat d lookPath first events).st.mbpsDistribution = [])
        ↔ d < 15000000000)) := by
  have hiff := Seconds_lt_iff rnd hrnd d
  have hlow : d < 15000000000 → main rnd ParseFloat d lookPath first events
      = (Proc.init ε F).fatal (.intervalTooShort d) := by
    intro hd
    simp [main, hiff.mpr hd]
  have hhigh : 15000000000 ≤ d → main rnd ParseFloat d lookPath first events
      = afterIntervalCheck ParseFloat lookPath first events := by
    intro hd
    have : ¬ Seconds rnd d < 15 := fun h => absurd (hiff.mp h) (by omega)
    simp [main, this]
  have habort : ((main rnd ParseFloat d lookPath first events).status = .exited 1
        ∧ (main rnd ParseFloat d lookPath first events).serverStarted = false
        ∧ (main rnd ParseFloat d lookPath first events).st.latencyDistribution = []
        ∧ (main rnd ParseFloat d lookPath first events).st.mbpsDistribution = [])
      ↔ (d < 15000000000 ∨ ∃ err, lookPath = .error err) := by
    constructor
    · intro h
      by_contra hc
      rw [not_or] at hc
      obtain ⟨hd, hlp⟩ := hc
      cases hl : lookPath with
      | error err => exact hlp ⟨err, hl⟩
      | ok path =>
        have hst := h.1
        rw [hhigh (by omega), hl] at hst
        rcases afterIntervalCheck_status ParseFloat path first events with h1 | h1
        · rw [h1] at hst
          exact absurd hst (by decide)
        · rw [h1] at hst
          exact absurd hst (by decide)
    · intro h
      rcases lt_or_le d 15000000000 with hd | hd
      · rw [hlow hd]
        simp [Proc.fatal, Proc.init, State.fresh, State.logLine]
      · rcases h with h | ⟨err, hl⟩
        · omega
        · rw [hhigh hd, hl]
          simp [afterIntervalCheck, Proc.fatal, Proc.init, State.fresh, State.logLine]
  refine ⟨hiff, ?_, hhigh, ?_, habort, ?_⟩
  · intro hd
    rw [hlow hd]
    simp [Proc.fatal, Proc.init, State.fresh, State.logLine]
  · constructor
    · intro h
      by_contra hd
      rw [hhigh (by omega)] at h
      exact afterIntervalCheck_log_head ParseFloat lookPath first events d h
    · intro hd
      rw [hlow hd]
      simp [Proc.fatal, Proc.init, State.fresh, State.logLine]
  · intro path hl
    rw [habort]
    constructor
    · rintro (h | ⟨err, he⟩)
      · exact h
      · rw [hl] at he
        exact absurd he (by simp)
    · exact Or.inl

/-- C8 as stated fails: with interval 30 s and `fast-cli` not on the path, `main` exits with
status 1 through `exec.LookPath`, the server goroutine not started and no cycle run, although
the interval is not below 15 s; so a fatal abort before any cycle and before the server does
not imply an interval below 15 s. -/
theorem C8_counterexample :
    (main roundFloat64 decimalParseFloat 30000000000 (.error ()) (stubCycle ⟨8, 0⟩)
        []).status = .exited 1
    ∧ (main roundFloat64 decimalParseFloat 30000000000 (.error ()) (stubCycle ⟨8, 0⟩)
        []).serverStarted = false
    ∧ (main roundFloat64 decimalParseFloat 30000000000 (.error ()) (stubCycle ⟨8, 0⟩)
        []).st.latencyDistribution = []
    ∧ (main roundFloat64 decimalParseFloat 30000000000 (.error ()) (stubCycle ⟨8, 0⟩)
        []).st.mbpsDistribution = []
    ∧ (main roundFloat64 decimalParseFloat 30000000000 (.error ()) (stubCycle ⟨8, 0⟩)
        []).st.log = [.fastCliNotFound]
    ∧ ¬ ((30000000000 : Int) < 15000000000) := by
  have hs : ¬ Seconds roundFloat64 30000000000 < 15 :=
    fun h => absurd ((Seconds_lt_iff roundFloat64 float64Rounding_roundFloat64
      30000000000).mp h) (by decide)
  have h : main roundFloat64 decimalParseFloat 30000000000 (.error ()) (stubCycle ⟨8, 0⟩) []
      = afterIntervalCheck decimalParseFloat (.error ()) (stubCycle ⟨8, 0⟩) [] := by
    simp only [main, hs, if_false]
  rw [h]
  decide

/-- C8, amended, at 15 s minus 1 ns, at zero, at a negative interval and at exactly 15 s
with `fast-cli` found, with rounding to nearest. -/
theorem C8_intervalCheck_witness :
    ((main roundFloat64 decimalParseFloat 14999999999 (.ok "/usr/bin/fast-cli".toList)
        (stubCycle ⟨8, 0⟩) []).status = .exited 1
      ∧ (main roundFloat64 decimalParseFloat 14999999999 (.ok "/usr/bin/fast-cli".toList)
        (stubCycle ⟨8, 0⟩) []).serverStarted = false)
    ∧ (main roundFloat64 decimalParseFloat 0 (.ok "/usr/bin/fast-cli".toList)
        (stubCycle ⟨8, 0⟩) []).status = .exited 1
    ∧ (main roundFloat64 decimalParseFloat (-30000000000) (.ok "/usr/bin/fast-cli".toList)
        (stubCycle ⟨8, 0⟩) []).status = .exited 1
    ∧ main roundFloat64 decimalParseFloat 15000000000 (.ok "/usr/bin/fast-cli".toList)
        (stubCycle ⟨8, 0⟩) []
      = afterIntervalCheck decimalParseFloat (.ok "/usr/bin/fast-cli".toList)
        (stubCycle ⟨8, 0⟩) []
    ∧ ¬ ((main roundFloat64 decimalParseFloat 15000000000 (.ok "/usr/bin/fast-cli".toList)
          (stubCycle ⟨8, 0⟩) []).status = .exited 1
        ∧ (main roundFloat64 decimalParseFloat 15000000000 (.ok "/usr/bin/fast-cli".toList)
          (stubCycle ⟨8, 0⟩) []).serverStarted = false
        ∧ (main roundFloat64 decimalParseFloat 15000000000 (.ok "/usr/bin/fast-cli".toList)
          (stubCycle ⟨8, 0⟩) []).st.latencyDistribution = []
        ∧ (main roundFloat64 decimalParseFloat 15000000000 (.ok "/usr/bin/fast-cli".toList)
          (stubCycle ⟨8, 0⟩) []).st.mbpsDistribution = []) :=
  ⟨⟨((C8_intervalCheck roundFloat64 float64Rounding_roundFloat64 decimalParseFloat 14999999999
        (.ok "/usr/bin/fast-cli".toList) (stubCycle ⟨8, 0⟩) []).2.1 (by decide)).1,
     ((C8_intervalCheck roundFloat64 float64Rounding_roundFloat64 decimalParseFloat 14999999999
        (.ok "/usr/bin/fast-cli".toList) (stubCycle ⟨8, 0⟩) []).2.1 (by decide)).2.2.1⟩,
   ((C8_intervalCheck roundFloat64 float64Rounding_roundFloat64 decimalParseFloat 0
        (.ok "/usr/bin/fast-cli".toList) (stubCycle ⟨8, 0⟩) []).2.1 (by decide)).1,
   ((C8_intervalCheck roundFloat64 float64Rounding_roundFloat64 decimalParseFloat (-30000000000)
        (.ok "/usr/bin/fast-cli".toList) (stubCycle ⟨8, 0⟩) []).2.1 (by decide)).1,
   (C8_intervalCheck roundFloat64 float64Rounding_roundFloat64 decimalParseFloat 15000000000
        (.ok "/usr/bin/fast-cli".toList) (stubCycle ⟨8, 0⟩) []).2.2.1 (by decide),
   fun h => absurd (((C8_intervalCheck roundFloat64 float64Rounding_roundFloat64
        decimalParseFloat 15000000000 (.ok "/usr/bin/fast-cli".toList) (stubCycle ⟨8, 0⟩)
        []).2.2.2.2.2 "/usr/bin/fast-cli".toList rfl).mp h) (by decide)⟩

/-- C9, as the code runs: after a startup that passes both checks, when `ListenAndServe`
returns an error and the loop then receives from `ctx.Done()`, the error is logged with
`Printf`, `cancel` makes `ctx.Err()` the error `context.Canceled`, and the process logs
"Terminating with expected signal" and exits with status 0, no signal having arrived. -/
theorem C9_serverFailure_exitsZero {ε F : Type} [Zero F] (rnd : ℚ → ℚ)
    (hrnd : Float64Rounding rnd) (ParseFloat : List Char → Except ε F) (d : Int)
    (hd : 15000000000 ≤ d) (path : List Char) (first : Cycle ε F) (err : ε)
    (rest : List (Event ε F)) :
    (main rnd ParseFloat d (.ok path) first
        (.listenAndServe err :: .done :: rest)).status = .exited 0
    ∧ (main rnd ParseFloat d (.ok path) first (.listenAndServe err :: .done :: rest)).st.log
        = (runTest ParseFloat first (State.fresh ε F)).log
            ++ [.listenAndServeError err, .terminatingExpectedSignal] := by
  have hs : ¬ Seconds rnd d < 15 := fun h => absurd ((Seconds_lt_iff rnd hrnd d).mp h) (by omega)
  simp only [main, hs, if_false, afterIntervalCheck, List.foldl_cons]
  rw [foldl_step_exited ParseFloat rest _ 0 (by simp [step, Proc.init, Proc.cancel])]
  simp [step, Proc.init, Proc.cancel, State.logLine]

/-- C9 at interval 30 s: the server cannot bind, no signal arrives, the exit status is 0. -/
theorem C9_serverFailure_exitsZero_witness :
    (main roundFloat64 decimalParseFloat 30000000000 (.ok "/usr/bin/fast-cli".toList)
        (stubCycle ⟨8, 0⟩) [.listenAndServe (), .done]).status = .exited 0 :=
  (C9_serverFailure_exitsZero roundFloat64 float64Rounding_roundFloat64 decimalParseFloat 30000000000 (by decide)
    "/usr/bin/fast-cli".toList (stubCycle ⟨8, 0⟩) () []).1

/-- C10 as stated fails: in the end-to-end scenario, after the start and two timer firings,
three throughput observations and three latency observations exist, not two. -/
theorem C10_counterexample :
    endToEnd.status = .running
    ∧ endToEnd.st.mbpsDistribution.length = 3
    ∧ endToEnd.st.latencyDistribution.length = 3
    ∧ ¬ (endToEnd.st.mbpsDistribution.length = 2 ∧ endToEnd.st.latencyDistribution.length = 2
          ∧ endToEnd.st.mbpsGauge = ⟨10000, 2⟩ ∧ endToEnd.st.errorCounter "command" = 0
          ∧ endToEnd.st.errorCounter "unexpected_output" = 0) := by
  have hs : ¬ Seconds roundFloat64 15000000000 < 15 :=
    fun h => absurd ((Seconds_lt_iff roundFloat64 float64Rounding_roundFloat64 15000000000).mp h) (by decide)
  have h : endToEnd = afterIntervalCheck decimalParseFloat (.ok "/usr/bin/fast-cli".toList)
      (stubCycle ⟨8, 0⟩) [.tick (stubCycle ⟨9, 0⟩), .tick (stubCycle ⟨7, 0⟩)] := by
    simp only [endToEnd, main, hs, if_false]
  rw [h]
  decide

/-- C10, amended: from fresh metric state, with interval 15 s and a subprocess that always
succeeds with `"100.00 Mbps"`, once the scheduler has started and has handled `n` timer
firings with no stop signal, exactly `n + 1` throughput observations (all of the value `v` of
`"100.00"`) and exactly `n + 1` latency observations exist, the first from the cycle run at
once on start; the gauge reads `v` and both error counters read 0. -/
theorem C10_scheduler_observations {ε F : Type} [Zero F] (rnd : ℚ → ℚ)
    (hrnd : Float64Rounding rnd) (ParseFloat : List Char → Except ε F) (v : F)
    (hv : ParseFloat "100.00".toList = .ok v) (path : List Char) (e0 : F) (es : List F) :
    (main rnd ParseFloat 15000000000 (.ok path) (stubCycle e0)
        (es.map (fun e => Event.tick (stubCycle e)))).status = .running
    ∧ (main rnd ParseFloat 15000000000 (.ok path) (stubCycle e0)
        (es.map (fun e => Event.tick (stubCycle e)))).st.mbpsDistribution
        = List.replicate (es.length + 1) v
    ∧ (main rnd ParseFloat 15000000000 (.ok path) (stubCycle e0)
        (es.map (fun e => Event.tick (stubCycle e)))).st.latencyDistribution = e0 :: es
    ∧ (main rnd ParseFloat 15000000000 (.ok path) (stubCycle e0)
        (es.map (fun e => Event.tick (stubCycle e)))).st.mbpsGauge = v
    ∧ (main rnd ParseFloat 15000000000 (.ok path) (stubCycle e0)
        (es.map (fun e => Event.tick (stubCycle e)))).st.errorCounter "command" = 0
    ∧ (main rnd ParseFloat 15000000000 (.ok path) (stubCycle e0)
        (es.map (fun e => Event.tick (stubCycle e)))).st.errorCounter "unexpected_output"
        = 0 := by
  have hs : ¬ Seconds rnd 15000000000 < 15 :=
    fun h => absurd ((Seconds_lt_iff rnd hrnd 15000000000).mp h) (by decide)
  simp only [main, hs, if_false, afterIntervalCheck, runTest_stub ParseFloat v hv]
  obtain ⟨h1, h2, h3, h4, h5⟩ := foldl_ticks_stub ParseFloat v hv es
    { Proc.init ε F with
      serverStarted := true
      st :=
        { errorCounter := (Proc.init ε F).st.errorCounter
          mbpsDistribution := (Proc.init ε F).st.mbpsDistribution ++ [v]
          mbpsGauge := v
          latencyDistribution := (Proc.init ε F).st.latencyDistribution ++ [e0]
          log := (Proc.init ε F).st.log ++ [.recorded v] } }
    rfl rfl
  refine ⟨h1, ?_, ?_, h4, ?_, ?_⟩
  · rw [h2]
    simp [Proc.init, State.fresh, List.replicate_succ]
  · rw [h3]
    simp [Proc.init, State.fresh]
  · rw [h5]
    simp [Proc.init, State.fresh]
  · rw [h5]
    simp [Proc.init, State.fresh]

/-- C10, amended, at two timer firings: three observations in each histogram. -/
theorem C10_scheduler_observations_witness :
    (main roundFloat64 decimalParseFloat 15000000000 (.ok "/usr/bin/fast-cli".toList)
        (stubCycle ⟨8, 0⟩)
        ([⟨9, 0⟩, ⟨7, 0⟩].map (fun e => Event.tick (stubCycle e)))).st.mbpsDistribution
      = [⟨10000, 2⟩, ⟨10000, 2⟩, ⟨10000, 2⟩]
    ∧ (main roundFloat64 decimalParseFloat 15000000000 (.ok "/usr/bin/fast-cli".toList)
        (stubCycle ⟨8, 0⟩)
        ([⟨9, 0⟩, ⟨7, 0⟩].map (fun e => Event.tick (stubCycle e)))).st.latencyDistribution
      = [⟨8, 0⟩, ⟨9, 0⟩, ⟨7, 0⟩]
    ∧ (main roundFloat64 decimalParseFloat 15000000000 (.ok "/usr/bin/fast-cli".toList)
        (stubCycle ⟨8, 0⟩)
        ([⟨9, 0⟩, ⟨7, 0⟩].map (fun e => Event.tick (stubCycle e)))).st.mbpsGauge
      = ⟨10000, 2⟩ :=
  have h := C10_scheduler_observations roundFloat64 float64Rounding_roundFloat64 decimalParseFloat ⟨10000, 2⟩
    (by decide) "/usr/bin/fast-cli".toList ⟨8, 0⟩ [⟨9, 0⟩, ⟨7, 0⟩]
  ⟨h.2.1, h.2.2.1, h.2.2.2.1⟩

end FastCliExporter
